import Mathlib

/-!
Shallow embedding of the XZ_Search article scraper (`src/scraper.py`,
`src/init_db.py`) and proofs about its specification.

Strings are modelled as Lean `String` / `List Char`.  The effectful
collaborators (sqlite, playwright, requests) are modelled as explicit
environments: fallible operations return `Except String _`, HTTP image
fetches are a function `String → Option String` (`some bytes` on HTTP 200,
`none` on any network error or non-success status), and the image cache
directory is a list of file names.  The MD5 digest used for content
addressing is an explicit parameter `md5hex : String → String`.
-/

set_option autoImplicit false

deriving instance DecidableEq for Except

namespace XZ

/-! ## Python string helpers -/

/-- Python `str` whitespace characters (the ones `str.strip` removes for
ASCII input): space, tab, newline, carriage return, vertical tab, form feed. -/
def pyWs (c : Char) : Bool :=
  c == ' ' || c == '\t' || c == '\n' || c == '\r' || c == '\x0b' || c == '\x0c'

/-- Python `str.strip()` on a list of characters. -/
def pyStripList (l : List Char) : List Char :=
  ((l.dropWhile pyWs).reverse.dropWhile pyWs).reverse

/-- Python `str.strip()`. -/
def pyStrip (s : String) : String :=
  String.mk (pyStripList s.data)

/-- Python `haystack.replace(old, new)` (all non-overlapping occurrences,
left to right), with explicit fuel; the fuel strictly dominates the length
of the remaining input, so `strReplace` below always supplies enough. -/
def strReplaceF (old new : List Char) : Nat → List Char → List Char
  | 0, s => s
  | _ + 1, [] => if old = [] then new else []
  | fuel + 1, c :: cs =>
    if old ≠ [] ∧ old.isPrefixOf (c :: cs) then
      new ++ strReplaceF old new fuel ((c :: cs).drop old.length)
    else if old = [] then
      new ++ c :: strReplaceF old new fuel cs
    else
      c :: strReplaceF old new fuel cs

/-- Python `haystack.replace(old, new)`. -/
def strReplace (old new s : List Char) : List Char :=
  strReplaceF old new (s.length + 1) s

/-! ## The regexes of `process_images_in_html` -/

/-- One attempted match of the Python regex `<img[^>]+>` at the current
position: succeeds when the input starts with `<img`, followed by at least
one character that is not `>`, followed by `>`.  Returns the matched span
and the rest of the input. -/
def imgMatchAt : List Char → Option (List Char × List Char)
  | '<' :: 'i' :: 'm' :: 'g' :: rest =>
    match rest.dropWhile (fun c => c != '>') with
    | '>' :: tail =>
      if rest.takeWhile (fun c => c != '>') = [] then none
      else some ('<' :: 'i' :: 'm' :: 'g' ::
        (rest.takeWhile (fun c => c != '>') ++ ['>']), tail)
    | _ => none
  | _ => none

/-- A quote character, as in the character class `["\']`. -/
def isQuote (c : Char) : Bool := c == '"' || c == '\''

/-- One attempted match of `src=["\']([^"\']+)["\']` at the current
position; returns capture group 1. -/
def srcAt : List Char → Option (List Char)
  | 's' :: 'r' :: 'c' :: '=' :: q :: rest =>
    if isQuote q then
      let grp := rest.takeWhile (fun c => !isQuote c)
      match rest.dropWhile (fun c => !isQuote c) with
      | _ :: _ => if grp = [] then none else some grp
      | [] => none
    else none
  | _ => none

/-- `re.search(r'src=["\']([^"\']+)["\']', img_tag)`: the leftmost match,
scanning start positions left to right. -/
def findSrc : List Char → Option (List Char)
  | [] => none
  | c :: cs =>
    match srcAt (c :: cs) with
    | some g => some g
    | none => findSrc cs

/-! ## Content addressing (`download_image`) -/

/-- Python `img_url.split('?')[0]`. -/
def splitQuery (u : List Char) : List Char := u.takeWhile (fun c => c != '?')

/-- The part of a path after its last `/`. -/
def basenameOf (p : List Char) : List Char :=
  (p.reverse.takeWhile (fun c => c != '/')).reverse

/-- Python `os.path.splitext(p)[-1]`: the extension starting at the last
dot of the basename, where a run of leading dots in the basename does not
start an extension. -/
def extOf (u : List Char) : List Char :=
  let b := basenameOf (splitQuery u)
  let d := b.dropWhile (fun c => c == '.')
  if d.any (fun c => c == '.') then
    ((d.reverse.takeWhile (fun c => c != '.')) ++ ['.']).reverse
  else []

/-- The cache file name for an image URL:
`hashlib.md5(img_url.encode()).hexdigest()` plus the original extension,
defaulting to `.png` when the URL has none. -/
def localFilename (md5hex : String → String) (url : String) : String :=
  let e := extOf url.data
  md5hex url ++ (if e = [] then ".png" else String.mk e)

/-- The path under which a cached image is served back. -/
def localUrl (md5hex : String → String) (url : String) : String :=
  "/static/images/" ++ localFilename md5hex url

/-- Performs the body of `download_image`: look up the content-addressed
cache entry for `url`; on a hit return the local path with no network
access; on a miss perform the HTTP GET (`fetch`), and on success store the
bytes under the computed name.  On fetch failure (network error or
non-success status, i.e. `fetch url = none`) return `none` and leave the
cache unchanged.  Result: `(local path or none, cache, fetched URLs)`. -/
def download_image (md5hex : String → String) (fetch : String → Option String)
    (cache : List String) (url : String) :
    Option String × List String × List String :=
  let fn := localFilename md5hex url
  if fn ∈ cache then
    (some ("/static/images/" ++ fn), cache, [])
  else
    match fetch url with
    | some _ => (some ("/static/images/" ++ fn), fn :: cache, [url])
    | none => (none, cache, [url])

/-! ## `process_images_in_html`

`re.sub(r'<img[^>]+>', replace_img, html)` decomposes the input into the
non-overlapping leftmost matches of `<img[^>]+>` and the characters
between them, then maps `replace_img` over the matches.  `parseSegs`
performs that decomposition; `processSegs` maps over it, threading the
image cache. -/

/-- A segment of the input: a character outside any `<img[^>]+>` match, or
one whole matched `<img ...>` span. -/
inductive Seg where
  | chr (c : Char)
  | tag (t : List Char)
deriving DecidableEq

/-- The `re.sub` scan, with explicit fuel strictly dominating the input
length. -/
def parseSegsF : Nat → List Char → List Seg
  | 0, _ => []
  | _ + 1, [] => []
  | fuel + 1, c :: cs =>
    match imgMatchAt (c :: cs) with
    | some (t, rest) => Seg.tag t :: parseSegsF fuel rest
    | none => Seg.chr c :: parseSegsF fuel cs

/-- Decomposition of a markup string into the leftmost non-overlapping
matches of `<img[^>]+>` and the characters between them. -/
def parseSegs (s : List Char) : List Seg :=
  parseSegsF (s.length + 1) s

/-- Reassemble a segment list into a string. -/
def joinSegs : List Seg → List Char
  | [] => []
  | Seg.chr c :: segs => c :: joinSegs segs
  | Seg.tag t :: segs => t ++ joinSegs segs

/-- The `replace_img` callback of `process_images_in_html`: find the
first `src=["\']([^"\']+)["\']` match in the tag; if the captured value
starts with `http`, attempt `download_image`; on success replace every
occurrence of the value in the tag with the local path (Python
`img_tag.replace`); otherwise return the tag unchanged.
Result: `(tag, cache, fetched URLs)`. -/
def replace_img (md5hex : String → String) (fetch : String → Option String)
    (img_tag : List Char) (cache : List String) :
    List Char × List String × List String :=
  match findSrc img_tag with
  | some src =>
    if "http".data.isPrefixOf src then
      match download_image md5hex fetch cache (String.mk src) with
      | (some localPath, cache', log) =>
        (strReplace src localPath.data img_tag, cache', log)
      | (none, cache', log) => (img_tag, cache', log)
    else (img_tag, cache, [])
  | none => (img_tag, cache, [])

/-- Map `replace_img` over a segment list, threading the cache and
accumulating the fetched URLs; characters outside matches pass through
unchanged. -/
def processSegs (md5hex : String → String) (fetch : String → Option String) :
    List Seg → List String → List Char × List String × List String
  | [], cache => ([], cache, [])
  | Seg.chr c :: segs, cache =>
    match processSegs md5hex fetch segs cache with
    | (out, cache', log) => (c :: out, cache', log)
  | Seg.tag t :: segs, cache =>
    match replace_img md5hex fetch t cache with
    | (t', cache', log₁) =>
      match processSegs md5hex fetch segs cache' with
      | (out, cache'', log₂) => (t' ++ out, cache'', log₁ ++ log₂)

/-- `process_images_in_html(html_content)`, threading the image cache. -/
def process_images_in_html (md5hex : String → String)
    (fetch : String → Option String) (html_content : List Char)
    (cache : List String) : List Char × List String × List String :=
  processSegs md5hex fetch (parseSegs html_content) cache

/-! ## Modern-path style post-processing

`scrape_single_article` post-processes modern-page markup with
`re.sub(r'style="([^"]*?)display:\s*none;?([^"]*?)"', ...)` followed by
`re.sub(r'\s*style=""', '', ...)`. -/

/-- After the literal `display:` has been consumed: match `\s*none;?`,
then capture group 2 (`[^"]*?` up to the closing quote).  Returns
`(group2, rest after the closing quote)`. -/
def sdnTail (s : List Char) : Option (List Char × List Char) :=
  let s1 := s.dropWhile pyWs
  if "none".data.isPrefixOf s1 then
    let s2 := s1.drop 4
    let s3 := if s2.head? = some ';' then s2.tail else s2
    let g2 := s3.takeWhile (fun c => c != '"')
    match s3.dropWhile (fun c => c != '"') with
    | '"' :: r => some (g2, r)
    | _ => none
  else none

/-- Search for `display:` reachable through the non-greedy `([^"]*?)`
capture group (so group 1 never contains a quote and successive
occurrences of `display:` are tried left to right, as backtracking does).
`acc` holds the reversed group-1 characters seen so far.  Returns
`(group1, group2, rest)`. -/
def sdnSearch : List Char → List Char → Option (List Char × List Char × List Char)
  | _, [] => none
  | acc, c :: cs =>
    if "display:".data.isPrefixOf (c :: cs) then
      match sdnTail ((c :: cs).drop 8) with
      | some (g2, rest) => some (acc.reverse, g2, rest)
      | none => if c = '"' then none else sdnSearch (c :: acc) cs
    else if c = '"' then none else sdnSearch (c :: acc) cs

/-- The scan of `re.sub(r'style="([^"]*?)display:\s*none;?([^"]*?)"',
lambda m: f'style="{m.group(1)}{m.group(2)}"'.replace('style=""', ''), s)`,
with explicit fuel strictly dominating the input length. -/
def stripDNF : Nat → List Char → List Char
  | 0, s => s
  | _ + 1, [] => []
  | fuel + 1, c :: cs =>
    if "style=\"".data.isPrefixOf (c :: cs) then
      match sdnSearch [] ((c :: cs).drop 7) with
      | some (g1, g2, rest) =>
        strReplace "style=\"\"".data [] ("style=\"".data ++ g1 ++ g2 ++ ['"'])
          ++ stripDNF fuel rest
      | none => c :: stripDNF fuel cs
    else c :: stripDNF fuel cs

/-- First modern-path post-processing substitution. -/
def stripDN (s : List Char) : List Char := stripDNF (s.length + 1) s

/-- The scan of `re.sub(r'\s*style=""', '', s)`, with explicit fuel. -/
def stripEmptyStyleF : Nat → List Char → List Char
  | 0, s => s
  | _ + 1, [] => []
  | fuel + 1, c :: cs =>
    let r := (c :: cs).dropWhile pyWs
    if "style=\"\"".data.isPrefixOf r then stripEmptyStyleF fuel (r.drop 8)
    else c :: stripEmptyStyleF fuel cs

/-- Second modern-path post-processing substitution. -/
def stripEmptyStyle (s : List Char) : List Char := stripEmptyStyleF (s.length + 1) s

/-- Both modern-path post-processing substitutions, in source order. -/
def postProcessModern (s : String) : String :=
  String.mk (stripEmptyStyle (stripDN s.data))

/-! ## Persistent store (`init_db.py` schema, `article_exists`,
`save_article`) -/

/-- One row of the `articles` table (`init_db.py`): integer primary key
`id`, `url` UNIQUE, `created_at` defaulted to the write time. -/
structure Row where
  id : Nat
  title : String
  author : String
  url : String
  category : String
  content_html : String
  created_at : Nat
deriving DecidableEq

/-- The `articles` table. -/
abbrev Store := List Row

/-- The `article_data` dict passed to `save_article`. -/
structure ArticleData where
  id : Nat
  title : String
  author : String
  url : String
  category : String
  content_html : String
deriving DecidableEq

/-- A rendered DOM element: `inner_text()` and `inner_html()`. -/
structure Elem where
  text : String
  html : String

/-- A rendered page: `query_selector` keyed by the selector string. -/
structure Page where
  q : String → Option Elem

/-- The effectful collaborators of the scraper.  `Except.error` models a
raised exception.  `dbConnect` is `sqlite3.connect`, `dbQuery` the query
execution inside `article_exists`, `dbExec` the insert/commit inside
`save_article`; `launch`/`navL`/`navM`/`evalScroll`/`evalUnhide` are the
playwright operations per article id; `fetch` is `requests.get` for
images (`some bytes` iff status 200). -/
structure Env where
  dbConnect : Except String Unit
  dbQuery : Except String Unit
  dbExec : Except String Unit
  launch : Nat → Except String Unit
  navL : Nat → Except String Page
  navM : Nat → Except String Page
  evalScroll : Nat → Except String Unit
  evalUnhide : Nat → Except String Unit
  fetch : String → Option String

/-- Whether the table holds a row for `id` (`SELECT 1 FROM articles WHERE
id = ?`). -/
def existsRow (store : Store) (article_id : Nat) : Bool :=
  store.any (fun r => r.id == article_id)

/-- `article_exists(article_id)`: `sqlite3.connect` and the query are not
wrapped in any `except`, so a failure of either propagates to the caller
(the `try`/`finally` only closes the connection). -/
def article_exists (env : Env) (store : Store) (article_id : Nat) :
    Except String Bool := do
  env.dbConnect
  env.dbQuery
  pure (existsRow store article_id)

/-- `INSERT OR REPLACE INTO articles ...`: delete every row conflicting on
the `id` primary key or the UNIQUE `url`, then insert the new row with
`created_at` defaulted to the write time. -/
def upsertRow (store : Store) (a : ArticleData) (now : Nat) : Store :=
  store.filter (fun r => !(r.id == a.id || r.url == a.url)) ++
    [⟨a.id, a.title, a.author, a.url, a.category, a.content_html, now⟩]

/-- `save_article(article_data)`: `sqlite3.connect` sits before the `try`,
so a connection failure raises to the caller; any failure of the
insert/commit inside the `try` is caught and reported as `False` with the
store unchanged. -/
def save_article (env : Env) (store : Store) (a : ArticleData) (now : Nat) :
    Except String (Bool × Store) := do
  env.dbConnect
  match env.dbExec with
  | .error _ => pure (false, store)
  | .ok _ => pure (true, upsertRow store a now)

/-! ## `scrape_single_article` -/

/-- The schema threshold constant `ARTICLE_VERSION_THRESHOLD`. -/
def ARTICLE_VERSION_THRESHOLD : Nat := 16567

/-- The placeholder title synthesized when `.detail_title` is absent:
`f'文章 {article_id}'`. -/
def placeholderTitle (article_id : Nat) : String :=
  "文章 " ++ toString article_id

/-- The canonical URL of an article:
`f'https://xz.aliyun.com/news/{article_id}'`. -/
def articleUrl (article_id : Nat) : String :=
  "https://xz.aliyun.com/news/" ++ toString article_id

/-- `is_empty_article(title, article_id)`. -/
def is_empty_article (title : String) (article_id : Nat) : Bool :=
  title == placeholderTitle article_id || title == "" || pyStrip title == ""

/-- The two page-layout conventions. -/
inductive SchemaVariant where
  | legacy
  | modern
deriving DecidableEq

/-- Schema selection: the branch `if article_id <= ARTICLE_VERSION_THRESHOLD`
of `scrape_single_article`. -/
def selectVariant (article_id : Nat) : SchemaVariant :=
  if article_id ≤ ARTICLE_VERSION_THRESHOLD then .legacy else .modern

/-- The raw field tuple produced by extraction. -/
structure RawFields where
  title : String
  author : String
  category : String
  content_html : String
deriving DecidableEq

/-- Title extraction, common to both paths:
`title_elem.inner_text().strip() if title_elem else f'文章 {article_id}'`. -/
def extractTitle (p : Page) (article_id : Nat) : String :=
  match p.q ".detail_title" with
  | some e => pyStrip e.text
  | none => placeholderTitle article_id

/-- Author extraction, common to both paths. -/
def extractAuthor (p : Page) : String :=
  match p.q ".username" with
  | some e => pyStrip e.text
  | none => "未知作者"

/-- Category extraction, common to both paths. -/
def extractCategory (p : Page) : String :=
  match p.q ".cates_span" with
  | some e => pyStrip e.text
  | none => ""

/-- Legacy-path field extraction. -/
def extractLegacy (p : Page) (article_id : Nat) : RawFields :=
  { title := extractTitle p article_id
    author := extractAuthor p
    category := extractCategory p
    content_html :=
      match p.q ".detail_content, #markdown-body" with
      | some e => e.html
      | none => "<p>无内容</p>" }

/-- Modern-path field extraction: body via `.ne-viewer-body` with a
fallback to the legacy selectors, then the two style-stripping
substitutions. -/
def extractModern (p : Page) (article_id : Nat) : RawFields :=
  { title := extractTitle p article_id
    author := extractAuthor p
    category := extractCategory p
    content_html :=
      let contentElem :=
        match p.q ".ne-viewer-body" with
        | some e => some e
        | none => p.q ".detail_content, #markdown-body"
      postProcessModern
        (match contentElem with
         | some e => e.html
         | none => "<p>无内容</p>") }

/-- Navigation and rendering for one article id: `page.goto` with the
legacy settle delay, or `page.goto` plus the scroll and un-hide scripts on
the modern path.  Any raised failure propagates (it is caught by the
enclosing `try` of `scrape_single_article`). -/
def renderPage (env : Env) (article_id : Nat) : Except String Page :=
  if article_id ≤ ARTICLE_VERSION_THRESHOLD then
    env.navL article_id
  else do
    let p ← env.navM article_id
    env.evalScroll article_id
    env.evalUnhide article_id
    pure p

/-- Field extraction for one article id, on the schema path selected by
the threshold. -/
def extractFields (p : Page) (article_id : Nat) : RawFields :=
  if article_id ≤ ARTICLE_VERSION_THRESHOLD then extractLegacy p article_id
  else extractModern p article_id

/-- The classified outcome of one task (the `status` field of the result
dict). -/
inductive Outcome where
  | exists_ (id : Nat)
  | skip (id : Nat)
  | error (id : Nat) (msg : String)
  | success (a : ArticleData)
deriving DecidableEq

/-- Observable rendering/network work performed by one task. -/
inductive Eff where
  | navigate (id : Nat)
  | fetchImg (u : String)
deriving DecidableEq

/-- The body of the `try` block of `scrape_single_article` (everything
after the duplicate check): every raised failure is converted to the
outcome `error`, everything else classifies as `skip` or `success`.
Result: `(outcome, image cache, effects performed)`. -/
def scrapeBody (md5hex : String → String) (env : Env) (cache : List String)
    (article_id : Nat) : Outcome × List String × List Eff :=
  match env.launch article_id with
  | .error e => (.error article_id e, cache, [])
  | .ok _ =>
    match renderPage env article_id with
    | .error e => (.error article_id e, cache, [.navigate article_id])
    | .ok p =>
      let f := extractFields p article_id
      if is_empty_article f.title article_id then
        (.skip article_id, cache, [.navigate article_id])
      else
        match process_images_in_html md5hex env.fetch f.content_html.data cache with
        | (html', cache', fetched) =>
          (.success ⟨article_id, f.title, f.author, articleUrl article_id,
              f.category, String.mk html'⟩,
           cache', .navigate article_id :: fetched.map .fetchImg)

/-- `scrape_single_article(article_id)`: the duplicate check runs before
the `try`, so its failure propagates; a positive duplicate check
short-circuits to `exists_` with no rendering or network work. -/
def scrape_single_article (md5hex : String → String) (env : Env)
    (store : Store) (cache : List String) (article_id : Nat) :
    Except String (Outcome × List String × List Eff) := do
  let ex ← article_exists env store article_id
  if ex then pure (.exists_ article_id, cache, [])
  else pure (scrapeBody md5hex env cache article_id)

/-! ## The orchestrator (`main`) -/

/-- The four outcome counters of `main`. -/
structure Counts where
  success : Nat
  skip : Nat
  fail : Nat
  exist : Nat
deriving DecidableEq

/-- Sum of the four counters. -/
def Counts.total (c : Counts) : Nat := c.success + c.skip + c.fail + c.exist

/-- All counters zero. -/
def zeroCounts : Counts := ⟨0, 0, 0, 0⟩

/-- The orchestrator state: the shared store, the shared image cache
directory, the four counters, and a clock supplying `created_at` times. -/
structure RunState where
  store : Store
  cache : List String
  counts : Counts
  clock : Nat
deriving DecidableEq

/-- Collection of one completed future in `main`: a raised task failure is
caught and counted as a failure; otherwise exactly one counter is
incremented from the outcome, and a `success` outcome is persisted via
`save_article` (whose own raised failure is caught by the same `except`,
counting as a failure). -/
def step (md5hex : String → String) (env : Env) (s : RunState) (article_id : Nat) :
    RunState :=
  match scrape_single_article md5hex env s.store s.cache article_id with
  | .error _ =>
    { s with counts := { s.counts with fail := s.counts.fail + 1 } }
  | .ok (out, cache', _) =>
    match out with
    | .exists_ _ =>
      { s with cache := cache',
               counts := { s.counts with exist := s.counts.exist + 1 } }
    | .skip _ =>
      { s with cache := cache',
               counts := { s.counts with skip := s.counts.skip + 1 } }
    | .error _ _ =>
      { s with cache := cache',
               counts := { s.counts with fail := s.counts.fail + 1 } }
    | .success a =>
      match save_article env s.store a s.clock with
      | .error _ =>
        { s with cache := cache',
                 counts := { s.counts with fail := s.counts.fail + 1 } }
      | .ok (true, st') =>
        { store := st', cache := cache',
          counts := { s.counts with success := s.counts.success + 1 },
          clock := s.clock + 1 }
      | .ok (false, st') =>
        { store := st', cache := cache',
          counts := { s.counts with fail := s.counts.fail + 1 },
          clock := s.clock + 1 }

/-- Process a list of article ids (the completion order of
`as_completed`) from a given state. -/
def runOrder (md5hex : String → String) (env : Env) (order : List Nat)
    (init : RunState) : RunState :=
  order.foldl (step md5hex env) init

/-- The submitted identifier range `range(start_id, end_id + 1)`. -/
def idRange (start_id end_id : Nat) : List Nat :=
  List.range' start_id (end_id + 1 - start_id)

/-- `main(start_id, end_id, max_workers)`, starting from an empty store,
an empty image cache and zeroed counters, processing tasks in the given
completion order. -/
def main (md5hex : String → String) (env : Env) (order : List Nat) : RunState :=
  runOrder md5hex env order ⟨[], [], zeroCounts, 0⟩

/-- The classification of an outcome, as tallied by `main`. -/
inductive STag where
  | success
  | skip
  | fail
  | exist
deriving DecidableEq

/-- The tag of an outcome. -/
def Outcome.tag : Outcome → STag
  | .exists_ _ => .exist
  | .skip _ => .skip
  | .error _ _ => .fail
  | .success _ => .success

/-- The classification `scrapeBody` produces for an id, which depends
only on the environment and the id (not on the image cache). -/
def scrapeStatus (env : Env) (article_id : Nat) : STag :=
  match env.launch article_id with
  | .error _ => .fail
  | .ok _ =>
    match renderPage env article_id with
    | .error _ => .fail
    | .ok p =>
      if is_empty_article (extractFields p article_id).title article_id then .skip
      else .success

/-! ## Helper lemmas -/

theorem forall_pyWs_dropWhile (l : List Char) :
    (∀ c ∈ l.dropWhile pyWs, pyWs c) ↔ ∀ c ∈ l, pyWs c := by
  constructor
  · intro h c hc
    have hsplit : l.takeWhile pyWs ++ l.dropWhile pyWs = l :=
      List.takeWhile_append_dropWhile pyWs l
    rw [← hsplit] at hc
    rcases List.mem_append.mp hc with h1 | h2
    · exact List.mem_takeWhile_imp h1
    · exact h c h2
  · intro h c hc
    exact h c (List.Sublist.subset (List.dropWhile_sublist pyWs) hc)

theorem pyStripList_eq_nil_iff (l : List Char) :
    pyStripList l = [] ↔ ∀ c ∈ l, pyWs c := by
  unfold pyStripList
  rw [List.reverse_eq_nil_iff, List.dropWhile_eq_nil_iff]
  constructor
  · intro h
    rw [← forall_pyWs_dropWhile]
    intro c hc
    exact h c (by simpa using hc)
  · intro h c hc
    exact h c (List.Sublist.subset (List.dropWhile_sublist pyWs) (by simpa using hc))

theorem pyStrip_eq_empty_iff (t : String) :
    pyStrip t = "" ↔ ∀ c ∈ t.data, pyWs c := by
  rw [String.ext_iff]
  show pyStripList t.data = [] ↔ _
  exact pyStripList_eq_nil_iff t.data

/-- Reduction of `scrape_single_article` when the duplicate probe raises. -/
theorem scrape_of_probe_error (md5hex : String → String) (env : Env)
    (store : Store) (cache : List String) (article_id : Nat) (e : String)
    (h : article_exists env store article_id = .error e) :
    scrape_single_article md5hex env store cache article_id = .error e := by
  unfold scrape_single_article
  rw [h]
  rfl

/-- Reduction of `scrape_single_article` on a positive duplicate probe. -/
theorem scrape_of_probe_true (md5hex : String → String) (env : Env)
    (store : Store) (cache : List String) (article_id : Nat)
    (h : article_exists env store article_id = .ok true) :
    scrape_single_article md5hex env store cache article_id =
      .ok (.exists_ article_id, cache, []) := by
  unfold scrape_single_article
  rw [h]
  rfl

/-- Reduction of `scrape_single_article` on a negative duplicate probe. -/
theorem scrape_of_probe_false (md5hex : String → String) (env : Env)
    (store : Store) (cache : List String) (article_id : Nat)
    (h : article_exists env store article_id = .ok false) :
    scrape_single_article md5hex env store cache article_id =
      .ok (scrapeBody md5hex env cache article_id) := by
  unfold scrape_single_article
  rw [h]
  rfl

/-! ## C5 -/

/-- C5: `is_empty_article(title, id)` returns true if and only if the
title is empty or whitespace-only or equals the synthesized placeholder
`'文章 {id}'`; whenever it returns true (and the pipeline reached
extraction for a fresh id), the task terminates with outcome `Skip` and
the store is left unchanged — no record is written. -/
theorem claim_c5 :
    (∀ (t : String) (article_id : Nat),
      is_empty_article t article_id = true ↔
        ((∀ c ∈ t.data, pyWs c) ∨ t = placeholderTitle article_id)) ∧
    (∀ (md5hex : String → String) (env : Env) (s : RunState)
        (article_id : Nat) (p : Page),
      article_exists env s.store article_id = .ok false →
      env.launch article_id = .ok () →
      renderPage env article_id = .ok p →
      is_empty_article (extractFields p article_id).title article_id = true →
      scrapeBody md5hex env s.cache article_id =
        (.skip article_id, s.cache, [.navigate article_id]) ∧
      step md5hex env s article_id =
        { s with counts := { s.counts with skip := s.counts.skip + 1 } }) := by
  constructor
  · intro t article_id
    unfold is_empty_article
    simp only [Bool.or_eq_true, beq_iff_eq]
    constructor
    · rintro ((h | h) | h)
      · exact Or.inr h
      · refine Or.inl ?_
        intro c hc
        rw [h] at hc
        exact absurd hc (List.not_mem_nil c)
      · exact Or.inl ((pyStrip_eq_empty_iff t).mp h)
    · rintro (h | h)
      · exact Or.inr ((pyStrip_eq_empty_iff t).mpr h)
      · exact Or.inl (Or.inl h)
  · intro md5hex env s article_id p hprobe hlaunch hrender hempty
    have hbody : scrapeBody md5hex env s.cache article_id =
        (.skip article_id, s.cache, [.navigate article_id]) := by
      unfold scrapeBody
      rw [hlaunch, hrender]
      simp [hempty]
    refine ⟨hbody, ?_⟩
    unfold step
    rw [scrape_of_probe_false md5hex env s.store s.cache article_id hprobe, hbody]

/-- C5 witness. -/
theorem claim_c5_witness :
    is_empty_article " \t" 3 = true ∧
    is_empty_article "文章 3" 3 = true ∧
    is_empty_article "t" 3 = false ∧
    ((∀ c ∈ (" \t" : String).data, pyWs c) ∨ (" \t" : String) = placeholderTitle 3) :=
  ⟨by decide, by decide, by decide,
    (claim_c5.1 " \t" 3).mp (by decide)⟩

/-! ## C8 -/

/-- C8: schema selection is a pure function of the identifier and the
fixed threshold: `id ≤ ARTICLE_VERSION_THRESHOLD` selects the legacy
extraction path, `id > ARTICLE_VERSION_THRESHOLD` the modern one, and the
boundary `id = ARTICLE_VERSION_THRESHOLD` resolves to legacy. -/
theorem claim_c8 :
    (∀ article_id, article_id ≤ ARTICLE_VERSION_THRESHOLD →
      selectVariant article_id = .legacy) ∧
    (∀ article_id, ARTICLE_VERSION_THRESHOLD < article_id →
      selectVariant article_id = .modern) ∧
    selectVariant ARTICLE_VERSION_THRESHOLD = .legacy ∧
    (∀ (env : Env) (p : Page) (article_id : Nat),
      (selectVariant article_id = .legacy →
        renderPage env article_id = env.navL article_id ∧
        extractFields p article_id = extractLegacy p article_id) ∧
      (selectVariant article_id = .modern →
        extractFields p article_id = extractModern p article_id)) := by
  refine ⟨?_, ?_, ?_, ?_⟩
  · intro article_id h
    simp [selectVariant, h]
  · intro article_id h
    simp [selectVariant, Nat.not_le.mpr h]
  · simp [selectVariant]
  · intro env p article_id
    constructor
    · intro h
      by_cases hle : article_id ≤ ARTICLE_VERSION_THRESHOLD
      · exact ⟨by simp [renderPage, hle], by simp [extractFields, hle]⟩
      · simp [selectVariant, hle] at h
    · intro h
      by_cases hle : article_id ≤ ARTICLE_VERSION_THRESHOLD
      · simp [selectVariant, hle] at h
      · simp [extractFields, hle]

/-- C8 witness. -/
theorem claim_c8_witness :
    selectVariant 16567 = .legacy ∧ selectVariant 16568 = .modern :=
  ⟨claim_c8.1 16567 (by decide), claim_c8.2.1 16568 (by decide)⟩

/-- Every collection of a completed task increments exactly one of the
four counters. -/
theorem step_counts_total (md5hex : String → String) (env : Env)
    (s : RunState) (article_id : Nat) :
    (step md5hex env s article_id).counts.total = s.counts.total + 1 := by
  unfold step
  split
  · simp only [Counts.total]
    omega
  · split
    · simp only [Counts.total]
      omega
    · simp only [Counts.total]
      omega
    · simp only [Counts.total]
      omega
    · split
      · simp only [Counts.total]
        omega
      · simp only [Counts.total]
        omega
      · simp only [Counts.total]
        omega

/-- Folding over a completion order adds its length to the counter sum. -/
theorem runOrder_counts_total (md5hex : String → String) (env : Env)
    (order : List Nat) :
    ∀ init : RunState,
      (runOrder md5hex env order init).counts.total =
        init.counts.total + order.length := by
  induction order with
  | nil => intro init; simp [runOrder]
  | cons id rest ih =>
    intro init
    show (runOrder md5hex env rest (step md5hex env init id)).counts.total = _
    rw [ih (step md5hex env init id), step_counts_total]
    simp only [List.length_cons]
    omega

/-! ## C2 -/

/-- C2: for an inclusive range `[start_id, end_id]` with
`K = end_id - start_id + 1` identifiers and any worker count
`1 ≤ N ≤ K`, the orchestrator creates exactly `K` tasks, one per
identifier (each identifier of the range occurring exactly once), and for
any completion order the four counters are incremented exactly once per
task and sum to exactly `K`. -/
theorem claim_c2 (md5hex : String → String) (env : Env)
    (start_id end_id N : Nat) (order : List Nat)
    (hrange : start_id ≤ end_id) (hN1 : 1 ≤ N)
    (hNK : N ≤ end_id - start_id + 1)
    (hperm : order.Perm (idRange start_id end_id)) :
    (idRange start_id end_id).length = end_id - start_id + 1 ∧
    (∀ article_id,
      (idRange start_id end_id).count article_id =
        if start_id ≤ article_id ∧ article_id ≤ end_id then 1 else 0) ∧
    (main md5hex env order).counts.total = end_id - start_id + 1 := by
  have hlen : (idRange start_id end_id).length = end_id - start_id + 1 := by
    simp [idRange]
    omega
  refine ⟨hlen, ?_, ?_⟩
  · intro article_id
    have hmem : article_id ∈ idRange start_id end_id ↔
        start_id ≤ article_id ∧ article_id ≤ end_id := by
      rw [idRange, List.mem_range'_1]
      omega
    by_cases h : start_id ≤ article_id ∧ article_id ≤ end_id
    · rw [if_pos h]
      exact List.count_eq_one_of_mem (List.nodup_range' _ _) (hmem.mpr h)
    · rw [if_neg h]
      exact List.count_eq_zero_of_not_mem (fun hc => h (hmem.mp hc))
  · rw [main, runOrder_counts_total, hperm.length_eq, hlen]
    simp [zeroCounts, Counts.total]

/-- C2 witness: range `[1, 2]`, one worker, completion order `[2, 1]`. -/
theorem claim_c2_witness :
    (main (fun _ => "H") ⟨.ok (), .ok (), .ok (), fun _ => .ok (),
        fun _ => .ok ⟨fun _ => none⟩, fun _ => .ok ⟨fun _ => none⟩,
        fun _ => .ok (), fun _ => .ok (), fun _ => none⟩
      [2, 1]).counts.total = 2 :=
  (claim_c2 (fun _ => "H") ⟨.ok (), .ok (), .ok (), fun _ => .ok (),
      fun _ => .ok ⟨fun _ => none⟩, fun _ => .ok ⟨fun _ => none⟩,
      fun _ => .ok (), fun _ => .ok (), fun _ => none⟩
    1 2 1 [2, 1] (by decide) (by decide) (by decide) (by decide)).2.2

theorem imgMatchAt_eq {s t r : List Char} (h : imgMatchAt s = some (t, r)) :
    t ++ r = s ∧ r.length < s.length := by
  unfold imgMatchAt at h
  split at h
  · rename_i rest
    revert h
    split
    · rename_i tail heq
      intro h
      split at h
      · cases h
      · rename_i hmid
        injection h with h'
        injection h' with h1 h2
        subst h1
        subst h2
        have hsplit : rest.takeWhile (fun c => c != '>') ++
            rest.dropWhile (fun c => c != '>') = rest :=
          List.takeWhile_append_dropWhile _ rest
        rw [heq] at hsplit
        constructor
        · simp only [List.cons_append, List.append_assoc, List.singleton_append,
            List.nil_append]
          rw [hsplit]
        · have hlen := congrArg List.length hsplit
          simp only [List.length_append, List.length_cons] at hlen
          simp only [List.length_cons]
          omega
    · intro h
      cases h
  · cases h

theorem parseSegsF_join (fuel : Nat) :
    ∀ s : List Char, s.length < fuel → joinSegs (parseSegsF fuel s) = s := by
  induction fuel with
  | zero => intro s h; omega
  | succ n ih =>
    intro s h
    match s with
    | [] => rfl
    | c :: cs =>
      show joinSegs (match imgMatchAt (c :: cs) with
        | some (t, rest) => Seg.tag t :: parseSegsF n rest
        | none => Seg.chr c :: parseSegsF n cs) = c :: cs
      cases hm : imgMatchAt (c :: cs) with
      | some pr =>
        obtain ⟨t, rest⟩ := pr
        have hm2 := imgMatchAt_eq hm
        have hlt : rest.length < n := by
          have h3 := hm2.2
          simp only [List.length_cons] at h3 h
          omega
        simp only [joinSegs]
        rw [ih rest hlt]
        exact hm2.1
      | none =>
        have hlt : cs.length < n := by
          simp only [List.length_cons] at h
          omega
        simp only [joinSegs]
        rw [ih cs hlt]

/-- Unfolding equation of `processSegs` for a pass-through character. -/
theorem processSegs_chr (md5hex : String → String) (f : String → Option String)
    (ch : Char) (segs : List Seg) (c : List String) :
    processSegs md5hex f (Seg.chr ch :: segs) c =
      (ch :: (processSegs md5hex f segs c).1,
       (processSegs md5hex f segs c).2.1,
       (processSegs md5hex f segs c).2.2) := by
  show (match processSegs md5hex f segs c with
    | (out, cache', log) => (ch :: out, cache', log)) = _
  rcases hps : processSegs md5hex f segs c with ⟨out, cache', log⟩
  rfl

/-- Unfolding equation of `processSegs` for a matched `<img ...>` span. -/
theorem processSegs_tag (md5hex : String → String) (f : String → Option String)
    (t : List Char) (segs : List Seg) (c : List String) :
    processSegs md5hex f (Seg.tag t :: segs) c =
      ((replace_img md5hex f t c).1 ++
         (processSegs md5hex f segs (replace_img md5hex f t c).2.1).1,
       (processSegs md5hex f segs (replace_img md5hex f t c).2.1).2.1,
       (replace_img md5hex f t c).2.2 ++
         (processSegs md5hex f segs (replace_img md5hex f t c).2.1).2.2) := by
  show (match replace_img md5hex f t c with
    | (t', cache', log₁) =>
      match processSegs md5hex f segs cache' with
      | (out, cache'', log₂) => (t' ++ out, cache'', log₁ ++ log₂)) = _
  rcases hrt : replace_img md5hex f t c with ⟨t', cache', log₁⟩
  dsimp only

/-- The `re.sub` decomposition reassembles to the input: everything
outside the matched `<img ...>` spans is kept as the characters between
them. -/
theorem joinSegs_parseSegs (s : List Char) : joinSegs (parseSegs s) = s :=
  parseSegsF_join (s.length + 1) s (by omega)

theorem replace_img_allfail (md5hex : String → String)
    (f : String → Option String) (hf : ∀ u, f u = none) (t : List Char) :
    ∃ log, replace_img md5hex f t [] = (t, [], log) := by
  unfold replace_img
  cases hs : findSrc t with
  | none => exact ⟨[], rfl⟩
  | some src =>
    by_cases hh : "http".data.isPrefixOf src
    · refine ⟨[String.mk src], ?_⟩
      simp only [hh, if_true]
      unfold download_image
      rw [hf (String.mk src)]
      simp
    · exact ⟨[], by simp [hh]⟩

theorem processSegs_allfail (md5hex : String → String)
    (f : String → Option String) (hf : ∀ u, f u = none) :
    ∀ segs : List Seg, ∃ log, processSegs md5hex f segs [] = (joinSegs segs, [], log) := by
  intro segs
  induction segs with
  | nil => exact ⟨[], rfl⟩
  | cons sg rest ih =>
    obtain ⟨log, hlog⟩ := ih
    cases sg with
    | chr c =>
      refine ⟨log, ?_⟩
      rw [processSegs_chr, hlog]
      rfl
    | tag t =>
      obtain ⟨log₁, hrep⟩ := replace_img_allfail md5hex f hf t
      refine ⟨log₁ ++ log, ?_⟩
      rw [processSegs_tag, hrep]
      dsimp only
      rw [hlog]
      rfl

/-! ## C7 -/

/-- C7: an image fetch failure (network error or non-success status)
never raises out of image localization: `download_image` reports `none`
with the cache untouched, the img tag keeps its original remote URL, the
remaining markup is processed (with every fetch failing the whole markup
is returned byte-for-byte unchanged), and the enclosing article still
reaches outcome `Success` with its extracted fields intact. -/
theorem claim_c7 :
    ∀ md5hex : String → String,
      (∀ (f : String → Option String) (c : List String) (u : String),
        f u = none → localFilename md5hex u ∉ c →
        download_image md5hex f c u = (none, c, [u])) ∧
      (∀ (f : String → Option String) (c : List String) (t src : List Char),
        findSrc t = some src → "http".data.isPrefixOf src →
        localFilename md5hex (String.mk src) ∉ c → f (String.mk src) = none →
        replace_img md5hex f t c = (t, c, [String.mk src])) ∧
      (∀ (f : String → Option String) (s : List Char), (∀ u, f u = none) →
        ∃ log, process_images_in_html md5hex f s [] = (s, [], log)) ∧
      (∀ (env : Env) (p : Page) (article_id : Nat),
        env.launch article_id = .ok () →
        renderPage env article_id = .ok p →
        is_empty_article (extractFields p article_id).title article_id = false →
        (∀ u, env.fetch u = none) →
        ∃ log, scrapeBody md5hex env [] article_id =
          (.success ⟨article_id, (extractFields p article_id).title,
              (extractFields p article_id).author, articleUrl article_id,
              (extractFields p article_id).category,
              (extractFields p article_id).content_html⟩, [],
            .navigate article_id :: log)) := by
  intro md5hex
  have hdl : ∀ (f : String → Option String) (c : List String) (u : String),
      f u = none → localFilename md5hex u ∉ c →
      download_image md5hex f c u = (none, c, [u]) := by
    intro f c u hu hc
    unfold download_image
    rw [if_neg hc, hu]
  refine ⟨hdl, ?_, ?_, ?_⟩
  · intro f c t src hsrc hh hc hu
    unfold replace_img
    rw [hsrc]
    simp only [hh, if_true]
    rw [hdl f c (String.mk src) hu hc]
  · intro f s hf
    obtain ⟨log, hlog⟩ := processSegs_allfail md5hex f hf (parseSegs s)
    exact ⟨log, by rw [process_images_in_html, hlog, joinSegs_parseSegs]⟩
  · intro env p article_id hlaunch hrender hnonempty hf
    obtain ⟨log, hlog⟩ :=
      processSegs_allfail md5hex env.fetch hf
        (parseSegs (extractFields p article_id).content_html.data)
    refine ⟨log.map .fetchImg, ?_⟩
    unfold scrapeBody
    rw [hlaunch, hrender]
    simp only [hnonempty, Bool.false_eq_true, if_false]
    rw [process_images_in_html, hlog, joinSegs_parseSegs]

/-- C7 witness: markup holding one remote image, with the fetch failing,
passes through image localization byte-for-byte unchanged. -/
theorem claim_c7_witness :
    (process_images_in_html (fun _ => "H") (fun _ => none)
      "a<img src='http://x/p.png'>b".data []).1 =
      "a<img src='http://x/p.png'>b".data := by
  obtain ⟨log, hlog⟩ := (claim_c7 (fun _ => "H")).2.2.1 (fun _ => none)
    "a<img src='http://x/p.png'>b".data (fun _ => rfl)
  rw [hlog]

theorem existsRow_true_iff (store : Store) (article_id : Nat) :
    existsRow store article_id = true ↔ ∃ r ∈ store, r.id = article_id := by
  simp [existsRow, List.any_eq_true, beq_iff_eq]

theorem existsRow_false_iff (store : Store) (article_id : Nat) :
    existsRow store article_id = false ↔ ∀ r ∈ store, r.id ≠ article_id := by
  rw [← Bool.not_eq_true, existsRow_true_iff]
  simp

theorem article_exists_ok (env : Env) (store : Store) (article_id : Nat)
    (hc : env.dbConnect = .ok ()) (hq : env.dbQuery = .ok ()) :
    article_exists env store article_id = .ok (existsRow store article_id) := by
  unfold article_exists
  rw [hc, hq]
  rfl

/-- The classification of `scrapeBody` does not depend on the image
cache. -/
theorem scrapeBody_tag (md5hex : String → String) (env : Env)
    (cache : List String) (article_id : Nat) :
    ((scrapeBody md5hex env cache article_id).1).tag = scrapeStatus env article_id := by
  unfold scrapeBody scrapeStatus
  cases hl : env.launch article_id with
  | error e => rfl
  | ok u =>
    cases hr : renderPage env article_id with
    | error e => rfl
    | ok p =>
      cases he : is_empty_article (extractFields p article_id).title article_id with
      | true => simp [he, Outcome.tag]
      | false =>
        rcases hpi : process_images_in_html md5hex env.fetch
            (extractFields p article_id).content_html.data cache with ⟨h', c', l⟩
        simp [he, hpi, Outcome.tag]

/-- A `success` outcome of `scrapeBody` carries the processed article id
and its canonical URL. -/
theorem scrapeBody_success (md5hex : String → String) (env : Env)
    (cache : List String) (article_id : Nat) (a : ArticleData) :
    (scrapeBody md5hex env cache article_id).1 = .success a →
    a.id = article_id ∧ a.url = articleUrl article_id := by
  unfold scrapeBody
  cases hl : env.launch article_id with
  | error e =>
    intro h
    simp at h
  | ok u =>
    cases hr : renderPage env article_id with
    | error e =>
      intro h
      simp at h
    | ok p =>
      cases he : is_empty_article (extractFields p article_id).title article_id with
      | true =>
        intro h
        simp [he] at h
      | false =>
        rcases hpi : process_images_in_html md5hex env.fetch
            (extractFields p article_id).content_html.data cache with ⟨h', c', l⟩
        intro h
        simp only [he, Bool.false_eq_true, if_false, hpi] at h
        cases h
        exact ⟨rfl, rfl⟩

/-- A `success` outcome collected by `main` originates in `scrapeBody`. -/
theorem scrape_single_success (md5hex : String → String) (env : Env)
    (store : Store) (cache cache' : List String) (article_id : Nat)
    (a : ArticleData) (effs : List Eff)
    (h : scrape_single_article md5hex env store cache article_id =
      .ok (.success a, cache', effs)) :
    (scrapeBody md5hex env cache article_id).1 = .success a := by
  cases hpr : article_exists env store article_id with
  | error e =>
    rw [scrape_of_probe_error md5hex env store cache article_id e hpr] at h
    cases h
  | ok b =>
    cases b
    · rw [scrape_of_probe_false md5hex env store cache article_id hpr] at h
      injection h with h'
      rw [h']
    · rw [scrape_of_probe_true md5hex env store cache article_id hpr] at h
      injection h with h'
      cases h'

theorem save_article_store (env : Env) (store : Store) (a : ArticleData)
    (now : Nat) (b : Bool) (st' : Store)
    (h : save_article env store a now = .ok (b, st')) :
    st' = store ∨ st' = upsertRow store a now := by
  unfold save_article at h
  cases hc : env.dbConnect with
  | error e =>
    rw [hc] at h
    cases h
  | ok u =>
    rw [hc] at h
    cases hd : env.dbExec with
    | error e =>
      rw [hd] at h
      injection h with h'
      injection h' with h1 h2
      exact Or.inl h2.symm
    | ok v =>
      rw [hd] at h
      injection h with h'
      injection h' with h1 h2
      exact Or.inr h2.symm

/-- Collection of one task either leaves the store alone or replaces via
`upsertRow` with the record of that identifier. -/
theorem step_store_cases (md5hex : String → String) (env : Env)
    (s : RunState) (article_id : Nat) :
    (step md5hex env s article_id).store = s.store ∨
    ∃ a : ArticleData, a.id = article_id ∧ a.url = articleUrl article_id ∧
      (step md5hex env s article_id).store = upsertRow s.store a s.clock := by
  cases hss : scrape_single_article md5hex env s.store s.cache article_id with
  | error e =>
    left
    unfold step
    rw [hss]
  | ok p =>
    rcases p with ⟨out, c', effs⟩
    cases out with
    | exists_ i =>
      left
      unfold step
      rw [hss]
    | skip i =>
      left
      unfold step
      rw [hss]
    | error i m =>
      left
      unfold step
      rw [hss]
    | success a =>
      have ha := scrapeBody_success md5hex env s.cache article_id a
        (scrape_single_success md5hex env s.store s.cache c' article_id a effs hss)
      cases hsave : save_article env s.store a s.clock with
      | error e =>
        left
        unfold step
        rw [hss]
        dsimp only
        rw [hsave]
      | ok bp =>
        rcases bp with ⟨b, st'⟩
        rcases save_article_store env s.store a s.clock b st' hsave with h' | h'
        · left
          unfold step
          rw [hss]
          dsimp only
          rw [hsave]
          cases b <;> simpa using h'
        · right
          refine ⟨a, ha.1, ha.2, ?_⟩
          unfold step
          rw [hss]
          dsimp only
          rw [hsave]
          cases b <;> simpa using h'

/-- Rows after collecting one task: old rows, or the row of that
identifier carrying its canonical URL. -/
theorem step_store_sub (md5hex : String → String) (env : Env)
    (s : RunState) (article_id : Nat) (r : Row)
    (hr : r ∈ (step md5hex env s article_id).store) :
    r ∈ s.store ∨ (r.id = article_id ∧ r.url = articleUrl article_id) := by
  rcases step_store_cases md5hex env s article_id with h | ⟨a, haid, haurl, h⟩
  · rw [h] at hr
    exact Or.inl hr
  · rw [h] at hr
    rcases List.mem_append.mp hr with h' | h'
    · exact Or.inl (List.mem_filter.mp h').1
    · rcases List.mem_singleton.mp h' with rfl
      exact Or.inr ⟨haid, haurl⟩

/-- A stored row for an identifier outside the task (with a distinct
canonical URL) survives collecting that task. -/
theorem step_keeps (md5hex : String → String) (env : Env)
    (s : RunState) (article_id : Nat) (r : Row)
    (hr : r ∈ s.store) (hurl : r.url = articleUrl r.id)
    (hne : r.id ≠ article_id)
    (hneu : articleUrl article_id ≠ articleUrl r.id) :
    r ∈ (step md5hex env s article_id).store := by
  rcases step_store_cases md5hex env s article_id with h | ⟨a, haid, haurl, h⟩
  · rw [h]
    exact hr
  · rw [h]
    refine List.mem_append_left _ (List.mem_filter.mpr ⟨hr, ?_⟩)
    simp only [Bool.not_eq_eq_eq_not, Bool.not_true, Bool.or_eq_false_iff,
      beq_eq_false_iff_ne, ne_eq]
    constructor
    · rw [haid]
      exact hne
    · rw [haurl, hurl]
      intro hcontra
      exact hneu hcontra.symm

theorem runOrder_store_sub (md5hex : String → String) (env : Env) :
    ∀ (order : List Nat) (s : RunState) (r : Row),
      r ∈ (runOrder md5hex env order s).store →
      r ∈ s.store ∨ (r.id ∈ order ∧ r.url = articleUrl r.id) := by
  intro order
  induction order with
  | nil => intro s r h; exact Or.inl h
  | cons id rest ih =>
    intro s r h
    rcases ih (step md5hex env s id) r h with h' | h'
    · rcases step_store_sub md5hex env s id r h' with h'' | h''
      · exact Or.inl h''
      · right
        refine ⟨?_, ?_⟩
        · rw [h''.1]
          exact List.mem_cons_self id rest
        · rw [h''.2, h''.1]
    · exact Or.inr ⟨List.mem_cons_of_mem _ h'.1, h'.2⟩

theorem runOrder_keeps (md5hex : String → String) (env : Env) :
    ∀ (order : List Nat) (s : RunState) (r : Row),
      r ∈ s.store → r.url = articleUrl r.id → r.id ∉ order →
      (∀ j ∈ order, articleUrl j ≠ articleUrl r.id) →
      r ∈ (runOrder md5hex env order s).store := by
  intro order
  induction order with
  | nil => intro s r hr _ _ _; exact hr
  | cons id rest ih =>
    intro s r hr hurl hid hju
    refine ih (step md5hex env s id) r ?_ hurl
      (fun hc => hid (List.mem_cons_of_mem _ hc))
      (fun j hj => hju j (List.mem_cons_of_mem _ hj))
    exact step_keeps md5hex env s id r hr hurl
      (fun hc => hid (hc ▸ List.mem_cons_self id rest))
      (hju id (List.mem_cons_self id rest))

/-- With a healthy probe, collecting a task changes the store only when
the task is a fresh identifier whose scrape classifies `success` and the
insert succeeds. -/
theorem step_store_frozen (md5hex : String → String) (env : Env)
    (s : RunState) (article_id : Nat)
    (hc : env.dbConnect = .ok ()) (hq : env.dbQuery = .ok ())
    (h : existsRow s.store article_id = true ∨
      scrapeStatus env article_id ≠ .success ∨ env.dbExec ≠ .ok ()) :
    (step md5hex env s article_id).store = s.store := by
  have hpr := article_exists_ok env s.store article_id hc hq
  cases hex : existsRow s.store article_id with
  | true =>
    rw [hex] at hpr
    unfold step
    rw [scrape_of_probe_true md5hex env s.store s.cache article_id hpr]
  | false =>
    rw [hex] at hpr
    rcases ho : scrapeBody md5hex env s.cache article_id with ⟨out, c', effs⟩
    have htag := scrapeBody_tag md5hex env s.cache article_id
    rw [ho] at htag
    unfold step
    rw [scrape_of_probe_false md5hex env s.store s.cache article_id hpr, ho]
    cases out with
    | exists_ i => rfl
    | skip i => rfl
    | error i m => rfl
    | success a =>
      rcases h with h | h | h
      · rw [hex] at h
        cases h
      · exact absurd htag.symm h
      · cases hde : env.dbExec with
        | ok v =>
          cases v
          exact absurd hde h
        | error e =>
          have hsave : save_article env s.store a s.clock = .ok (false, s.store) := by
            unfold save_article
            rw [hc, hde]
            rfl
          dsimp only
          rw [hsave]

/-- A fresh identifier classifying `success`, with a healthy store, gets
persisted by its collection step. -/
theorem step_saves (md5hex : String → String) (env : Env)
    (s : RunState) (article_id : Nat)
    (hex : existsRow s.store article_id = false)
    (hst : scrapeStatus env article_id = .success)
    (hc : env.dbConnect = .ok ()) (hq : env.dbQuery = .ok ())
    (he : env.dbExec = .ok ()) :
    ∃ a : ArticleData, a.id = article_id ∧ a.url = articleUrl article_id ∧
      (step md5hex env s article_id).store = upsertRow s.store a s.clock := by
  have hpr := article_exists_ok env s.store article_id hc hq
  rw [hex] at hpr
  rcases ho : scrapeBody md5hex env s.cache article_id with ⟨out, c', effs⟩
  have htag := scrapeBody_tag md5hex env s.cache article_id
  rw [ho, hst] at htag
  cases out with
  | exists_ i => simp [Outcome.tag] at htag
  | skip i => simp [Outcome.tag] at htag
  | error i m => simp [Outcome.tag] at htag
  | success a =>
    have hsa := scrapeBody_success md5hex env s.cache article_id a (by rw [ho])
    refine ⟨a, hsa.1, hsa.2, ?_⟩
    unfold step
    rw [scrape_of_probe_false md5hex env s.store s.cache article_id hpr, ho]
    have hsave : save_article env s.store a s.clock =
        .ok (true, upsertRow s.store a s.clock) := by
      unfold save_article
      rw [hc, he]
      rfl
    dsimp only
    rw [hsave]

/-- Run-1 persistence: over a duplicate-free order with collision-free
canonical URLs and a healthy store, every identifier whose scrape
classifies `success` ends up persisted. -/
theorem run_persists (md5hex : String → String) (env : Env)
    (hc : env.dbConnect = .ok ()) (hq : env.dbQuery = .ok ())
    (he : env.dbExec = .ok ()) :
    ∀ (order : List Nat) (s : RunState) (article_id : Nat),
      order.Nodup → article_id ∈ order →
      (∀ r ∈ s.store, r.id ≠ article_id) →
      (∀ j ∈ order, articleUrl j = articleUrl article_id → j = article_id) →
      scrapeStatus env article_id = .success →
      existsRow (runOrder md5hex env order s).store article_id = true := by
  intro order s article_id hnd hmem hfree hinj hst
  obtain ⟨l₁, l₂, rfl⟩ := List.append_of_mem hmem
  rw [show runOrder md5hex env (l₁ ++ article_id :: l₂) s =
    runOrder md5hex env l₂ (step md5hex env (runOrder md5hex env l₁ s) article_id) from by
    rw [runOrder, runOrder, runOrder, List.foldl_append, List.foldl_cons]]
  have hnd₂ := hnd
  rw [List.nodup_append] at hnd₂
  have hid_l₁ : article_id ∉ l₁ := fun hcontra =>
    hnd₂.2.2 hcontra (List.mem_cons_self _ _)
  have hid_l₂ : article_id ∉ l₂ := (List.nodup_cons.mp hnd₂.2.1).1
  have hex : existsRow (runOrder md5hex env l₁ s).store article_id = false := by
    rw [existsRow_false_iff]
    intro r hr
    rcases runOrder_store_sub md5hex env l₁ s r hr with h' | h'
    · exact hfree r h'
    · intro hcontra
      rw [hcontra] at h'
      exact hid_l₁ h'.1
  obtain ⟨a, haid, haurl, hstep⟩ :=
    step_saves md5hex env (runOrder md5hex env l₁ s) article_id hex hst hc hq he
  have hnew : (⟨a.id, a.title, a.author, a.url, a.category, a.content_html,
      (runOrder md5hex env l₁ s).clock⟩ : Row) ∈
      (step md5hex env (runOrder md5hex env l₁ s) article_id).store := by
    rw [hstep]
    exact List.mem_append_right _ (List.mem_singleton.mpr rfl)
  rw [existsRow_true_iff]
  refine ⟨⟨a.id, a.title, a.author, a.url, a.category, a.content_html,
      (runOrder md5hex env l₁ s).clock⟩, ?_, haid⟩
  refine runOrder_keeps md5hex env l₂ _ _ hnew ?_ ?_ ?_
  · show a.url = articleUrl a.id
    rw [haurl, haid]
  · show a.id ∉ l₂
    rw [haid]
    exact hid_l₂
  · intro j hj
    show articleUrl j ≠ articleUrl a.id
    rw [haid]
    intro hcontra
    have := hinj j (List.mem_append_right l₁ (List.mem_cons_of_mem _ hj)) hcontra
    rw [this] at hj
    exact hid_l₂ hj

/-- Run-2 preservation: when every identifier of the order is either
already persisted or could not persist, the whole run leaves the store
untouched. -/
theorem run2_store (md5hex : String → String) (env : Env)
    (hc : env.dbConnect = .ok ()) (hq : env.dbQuery = .ok ()) :
    ∀ (order : List Nat) (s : RunState),
      (∀ article_id ∈ order, existsRow s.store article_id = true ∨
        scrapeStatus env article_id ≠ .success ∨ env.dbExec ≠ .ok ()) →
      (runOrder md5hex env order s).store = s.store := by
  intro order
  induction order with
  | nil => intro s _; rfl
  | cons id rest ih =>
    intro s hall
    have hstep : (step md5hex env s id).store = s.store :=
      step_store_frozen md5hex env s id hc hq (hall id (List.mem_cons_self id rest))
    show (runOrder md5hex env rest (step md5hex env s id)).store = s.store
    rw [ih (step md5hex env s id) (fun j hj => by
      rw [hstep]
      exact hall j (List.mem_cons_of_mem _ hj)), hstep]

/-- A concrete healthy environment whose pages render with no elements:
every extraction yields the placeholder title, so every task skips. -/
def envBlankPage : Env :=
  ⟨.ok (), .ok (), .ok (), fun _ => .ok (),
    fun _ => .ok ⟨fun _ => none⟩, fun _ => .ok ⟨fun _ => none⟩,
    fun _ => .ok (), fun _ => .ok (), fun _ => none⟩

/-- A concrete healthy environment whose pages render with a title
element, so every task succeeds. -/
def envTitled : Env :=
  ⟨.ok (), .ok (), .ok (), fun _ => .ok (),
    fun _ => .ok ⟨fun sel => if sel = ".detail_title" then some ⟨"T", ""⟩ else none⟩,
    fun _ => .ok ⟨fun _ => none⟩,
    fun _ => .ok (), fun _ => .ok (), fun _ => none⟩

/-- A fresh scrape never classifies as `Exists`. -/
theorem scrapeStatus_ne_exist (env : Env) (article_id : Nat) :
    scrapeStatus env article_id ≠ .exist := by
  unfold scrapeStatus
  cases hl : env.launch article_id with
  | error e => simp
  | ok u =>
    cases hr : renderPage env article_id with
    | error e => simp
    | ok p =>
      cases he : is_empty_article (extractFields p article_id).title article_id with
      | true => simp [he]
      | false => simp [he]

/-! ## C3 -/

/-- C3 counterexample: over the range `[1, 1]` against a page whose title
extraction is blank, the first run persists nothing (`Skip`), so on the
second run identifier 1 again classifies as `Skip`, not `Exists` — the
claim that every identifier classifies as `Exists` on the second run is
false. -/
theorem claim_c3_counterexample :
    (main (fun _ => "H") envBlankPage [1]).store = [] ∧
    scrape_single_article (fun _ => "H") envBlankPage
        (main (fun _ => "H") envBlankPage [1]).store
        (main (fun _ => "H") envBlankPage [1]).cache 1 =
      .ok (.skip 1, (main (fun _ => "H") envBlankPage [1]).cache, [.navigate 1]) ∧
    Outcome.skip 1 ≠ Outcome.exists_ 1 := by
  refine ⟨by decide, by decide, by decide⟩

/-- C3 amended: starting from an empty store, running the pipeline a
second time over the same identifier range (in any completion orders,
with the canonical URLs collision-free on the range) leaves the final
store byte-for-byte identical; every identifier that the first run
persisted classifies as `Exists` on the second run, short-circuiting with
no rendering or fetch work; identifiers the first run did not persist
(skip/error/blank) re-classify the same way, not as `Exists`. -/
theorem claim_c3_amended :
    ∀ (md5hex : String → String) (env : Env) (start_id end_id : Nat)
      (order₁ order₂ : List Nat),
      env.dbConnect = .ok () → env.dbQuery = .ok () →
      order₁.Perm (idRange start_id end_id) →
      order₂.Perm (idRange start_id end_id) →
      (∀ i ∈ order₁, ∀ j ∈ order₁, articleUrl i = articleUrl j → i = j) →
      (runOrder md5hex env order₂
        ⟨(main md5hex env order₁).store, (main md5hex env order₁).cache,
          zeroCounts, (main md5hex env order₁).clock⟩).store =
        (main md5hex env order₁).store ∧
      (∀ (article_id : Nat) (cache : List String),
        existsRow (main md5hex env order₁).store article_id = true →
        scrape_single_article md5hex env (main md5hex env order₁).store cache
          article_id = .ok (.exists_ article_id, cache, [])) ∧
      (∀ (article_id : Nat) (cache : List String),
        existsRow (main md5hex env order₁).store article_id = false →
        ∃ out c' effs,
          scrape_single_article md5hex env (main md5hex env order₁).store cache
            article_id = .ok (out, c', effs) ∧
          out.tag = scrapeStatus env article_id ∧ out.tag ≠ .exist) := by
  intro md5hex env start_id end_id order₁ order₂ hc hq hp₁ hp₂ hinj
  refine ⟨?_, ?_, ?_⟩
  · apply run2_store md5hex env hc hq
    intro article_id hmem₂
    have hmem₁ : article_id ∈ order₁ := hp₁.mem_iff.mpr (hp₂.mem_iff.mp hmem₂)
    by_cases hst : scrapeStatus env article_id = .success
    · by_cases hde : env.dbExec = .ok ()
      · left
        show existsRow (main md5hex env order₁).store article_id = true
        apply run_persists md5hex env hc hq hde order₁ ⟨[], [], zeroCounts, 0⟩
          article_id (hp₁.nodup_iff.mpr (List.nodup_range' _ _)) hmem₁
          (fun r hr => absurd hr (List.not_mem_nil r))
          (fun j hj hu => hinj j hj article_id hmem₁ hu) hst
      · right
        right
        exact hde
    · right
      left
      exact hst
  · intro article_id cache hex
    have hpr := article_exists_ok env (main md5hex env order₁).store article_id hc hq
    rw [hex] at hpr
    exact scrape_of_probe_true md5hex env _ cache article_id hpr
  · intro article_id cache hex
    have hpr := article_exists_ok env (main md5hex env order₁).store article_id hc hq
    rw [hex] at hpr
    rcases ho : scrapeBody md5hex env cache article_id with ⟨out, c', effs⟩
    have htag := scrapeBody_tag md5hex env cache article_id
    rw [ho] at htag
    refine ⟨out, c', effs, ?_, htag, ?_⟩
    · rw [scrape_of_probe_false md5hex env _ cache article_id hpr, ho]
    · rw [htag]
      exact scrapeStatus_ne_exist env article_id

/-- C3 witness: range `[1, 1]` against a page with a title: the second
run leaves the store of the first run unchanged. -/
theorem claim_c3_witness :
    (runOrder (fun _ => "H") envTitled [1]
      ⟨(main (fun _ => "H") envTitled [1]).store,
        (main (fun _ => "H") envTitled [1]).cache,
        zeroCounts, (main (fun _ => "H") envTitled [1]).clock⟩).store =
      (main (fun _ => "H") envTitled [1]).store :=
  (claim_c3_amended (fun _ => "H") envTitled 1 1 [1] [1] rfl rfl
    (by decide) (by decide) (by decide)).1

/-! ## C6 -/

/-- The URL that `replace_img` will try to localize for a tag: the first
`src=["\']...["\']` capture, when it starts with `http`. -/
def tagSrc (t : List Char) : Option (List Char) :=
  match findSrc t with
  | some s => if "http".data.isPrefixOf s then some s else none
  | none => none

/-- The remote image URLs of a decomposed markup string, one per
occurrence, in document order. -/
def srcsOfSegs (segs : List Seg) : List String :=
  segs.filterMap (fun sg =>
    match sg with
    | .tag t => (tagSrc t).map String.mk
    | .chr _ => none)

/-- The cache evolution of one `download_image` call for URL `u`. -/
def addOne (md5hex : String → String) (f : String → Option String)
    (c : List String) (u : String) : List String :=
  if localFilename md5hex u ∈ c then c
  else
    match f u with
    | some _ => localFilename md5hex u :: c
    | none => c

theorem replace_img_cache (md5hex : String → String)
    (f : String → Option String) (t : List Char) (c : List String) :
    (replace_img md5hex f t c).2.1 =
      match tagSrc t with
      | some s => addOne md5hex f c (String.mk s)
      | none => c := by
  unfold replace_img tagSrc
  cases hs : findSrc t with
  | none => rfl
  | some src =>
    by_cases hh : "http".data.isPrefixOf src
    · simp only [hh, if_true]
      unfold download_image addOne
      by_cases hc : localFilename md5hex (String.mk src) ∈ c
      · simp [hc]
      · simp only [hc, if_false]
        cases hf : f (String.mk src) <;> simp [hf, hc]
    · simp [hh]

theorem processSegs_cache (md5hex : String → String)
    (f : String → Option String) :
    ∀ (segs : List Seg) (c : List String),
      (processSegs md5hex f segs c).2.1 =
        (srcsOfSegs segs).foldl (addOne md5hex f) c := by
  intro segs
  induction segs with
  | nil => intro c; rfl
  | cons sg rest ih =>
    intro c
    cases sg with
    | chr ch =>
      rw [processSegs_chr]
      show (processSegs md5hex f rest c).2.1 = _
      rw [ih c]
      rfl
    | tag t =>
      rw [processSegs_tag]
      show (processSegs md5hex f rest (replace_img md5hex f t c).2.1).2.1 = _
      rw [ih, replace_img_cache]
      cases ht : tagSrc t with
      | none =>
        show _ = List.foldl _ c (srcsOfSegs (Seg.tag t :: rest))
        unfold srcsOfSegs
        rw [List.filterMap_cons]
        simp [ht, srcsOfSegs]
      | some s =>
        show _ = List.foldl _ c (srcsOfSegs (Seg.tag t :: rest))
        unfold srcsOfSegs
        rw [List.filterMap_cons]
        simp [ht, srcsOfSegs]

theorem addOne_mem (md5hex : String → String) (f : String → Option String)
    (c : List String) (u x : String) :
    x ∈ addOne md5hex f c u ↔
      x ∈ c ∨ (f u ≠ none ∧ x = localFilename md5hex u) := by
  unfold addOne
  by_cases hc : localFilename md5hex u ∈ c
  · rw [if_pos hc]
    constructor
    · exact Or.inl
    · rintro (h | ⟨_, rfl⟩)
      · exact h
      · exact hc
  · rw [if_neg hc]
    cases hf : f u with
    | none => simp [hf]
    | some b =>
      simp only [List.mem_cons, hf, ne_eq, reduceCtorEq, not_false_iff, true_and]
      tauto

theorem addOne_nodup (md5hex : String → String) (f : String → Option String)
    (c : List String) (u : String) (h : c.Nodup) :
    (addOne md5hex f c u).Nodup := by
  unfold addOne
  by_cases hc : localFilename md5hex u ∈ c
  · rw [if_pos hc]; exact h
  · rw [if_neg hc]
    cases f u with
    | none => exact h
    | some b => exact List.Nodup.cons hc h

theorem foldl_addOne_mem (md5hex : String → String) (f : String → Option String) :
    ∀ (srcs : List String) (c : List String) (x : String),
      x ∈ srcs.foldl (addOne md5hex f) c ↔
        x ∈ c ∨ ∃ u ∈ srcs, f u ≠ none ∧ x = localFilename md5hex u := by
  intro srcs
  induction srcs with
  | nil => intro c x; simp
  | cons u rest ih =>
    intro c x
    rw [List.foldl_cons, ih, addOne_mem]
    constructor
    · rintro ((h | h) | ⟨v, hv, hfv, rfl⟩)
      · exact Or.inl h
      · exact Or.inr ⟨u, List.mem_cons_self u rest, h.1, h.2⟩
      · exact Or.inr ⟨v, List.mem_cons_of_mem u hv, hfv, rfl⟩
    · rintro (h | ⟨v, hv, hfv, rfl⟩)
      · exact Or.inl (Or.inl h)
      · rcases List.mem_cons.mp hv with rfl | hv'
        · exact Or.inl (Or.inr ⟨hfv, rfl⟩)
        · exact Or.inr ⟨v, hv', hfv, rfl⟩

theorem foldl_addOne_nodup (md5hex : String → String) (f : String → Option String) :
    ∀ (srcs : List String) (c : List String), c.Nodup →
      (srcs.foldl (addOne md5hex f) c).Nodup := by
  intro srcs
  induction srcs with
  | nil => intro c h; exact h
  | cons u rest ih =>
    intro c h
    exact ih _ (addOne_nodup md5hex f c u h)

/-- C6: the image cache is content-addressed by the source URL string:
any successful localization of URL `u` (cache hit or fresh download)
rewrites to the one path determined by `u`, so repeated occurrences all
map to the identical local path; a URL whose entry exists is answered
from the cache with no network access; and markup whose distinct remote
URLs have distinct content addresses, all fresh and all fetchable,
creates exactly as many new cache entries as there are distinct URLs. -/
theorem claim_c6 :
    ∀ (md5hex : String → String) (f : String → Option String),
      (∀ (c : List String) (u p : String) (c' log : List String),
        download_image md5hex f c u = (some p, c', log) →
        p = localUrl md5hex u) ∧
      (∀ (c : List String) (u : String), localFilename md5hex u ∈ c →
        download_image md5hex f c u = (some (localUrl md5hex u), c, [])) ∧
      (∀ (t src : List Char) (c : List String),
        findSrc t = some src → "http".data.isPrefixOf src →
        (localFilename md5hex (String.mk src) ∈ c ∨ f (String.mk src) ≠ none) →
        (replace_img md5hex f t c).1 =
          strReplace src (localUrl md5hex (String.mk src)).data t) ∧
      (∀ (html : List Char) (c₀ : List String),
        (∀ u ∈ srcsOfSegs (parseSegs html), f u ≠ none) →
        (∀ u ∈ srcsOfSegs (parseSegs html), localFilename md5hex u ∉ c₀) →
        (∀ u ∈ srcsOfSegs (parseSegs html), ∀ v ∈ srcsOfSegs (parseSegs html),
          localFilename md5hex u = localFilename md5hex v → u = v) →
        c₀.Nodup →
        (process_images_in_html md5hex f html c₀).2.1.length =
          (srcsOfSegs (parseSegs html)).dedup.length + c₀.length) := by
  intro md5hex f
  refine ⟨?_, ?_, ?_, ?_⟩
  · intro c u p c' log h
    unfold download_image at h
    by_cases hc : localFilename md5hex u ∈ c
    · rw [if_pos hc] at h
      injection h with h1 h2
      injection h1 with h1
      exact h1.symm
    · rw [if_neg hc] at h
      cases hf : f u with
      | none => rw [hf] at h; cases h
      | some b =>
        rw [hf] at h
        injection h with h1 h2
        injection h1 with h1
        exact h1.symm
  · intro c u hc
    unfold download_image
    rw [if_pos hc]
    rfl
  · intro t src c hsrc hh hok
    unfold replace_img
    rw [hsrc]
    simp only [hh, if_true]
    unfold download_image
    by_cases hc : localFilename md5hex (String.mk src) ∈ c
    · rw [if_pos hc]
      rfl
    · rw [if_neg hc]
      cases hf : f (String.mk src) with
      | none =>
        rcases hok with h | h
        · exact absurd h hc
        · exact absurd hf h
      | some b => rfl
  · intro html c₀ hfetch hfresh hinj hnd
    rw [process_images_in_html, processSegs_cache]
    have hmem : ∀ x, x ∈ (srcsOfSegs (parseSegs html)).foldl (addOne md5hex f) c₀ ↔
        x ∈ (srcsOfSegs (parseSegs html)).dedup.map (localFilename md5hex) ++ c₀ := by
      intro x
      rw [foldl_addOne_mem, List.mem_append, List.mem_map]
      constructor
      · rintro (h | ⟨u, hu, _, rfl⟩)
        · exact Or.inr h
        · exact Or.inl ⟨u, List.mem_dedup.mpr hu, rfl⟩
      · rintro (⟨u, hu, rfl⟩ | h)
        · exact Or.inr ⟨u, List.mem_dedup.mp hu, hfetch u (List.mem_dedup.mp hu), rfl⟩
        · exact Or.inl h
    have hnodup₁ : ((srcsOfSegs (parseSegs html)).foldl (addOne md5hex f) c₀).Nodup :=
      foldl_addOne_nodup md5hex f _ c₀ hnd
    have hnodup₂ :
        ((srcsOfSegs (parseSegs html)).dedup.map (localFilename md5hex) ++ c₀).Nodup := by
      rw [List.nodup_append]
      refine ⟨?_, hnd, ?_⟩
      · refine List.Nodup.map_on ?_ (List.nodup_dedup _)
        intro u hu v hv he
        exact hinj u (List.mem_dedup.mp hu) v (List.mem_dedup.mp hv) he
      · intro x hx
        rcases List.mem_map.mp hx with ⟨u, hu, rfl⟩
        exact hfresh u (List.mem_dedup.mp hu)
    have hperm := (List.perm_ext_iff_of_nodup hnodup₁ hnodup₂).mpr hmem
    rw [hperm.length_eq, List.length_append, List.length_map]

/-- C6 witness: markup with three image occurrences over two distinct
URLs creates exactly two cache entries. -/
theorem claim_c6_witness :
    (process_images_in_html (fun s => s) (fun _ => some "B")
      "<img src='http://a'><img src='http://b'><img src='http://a'>".data
      []).2.1.length = 2 := by
  have h := (claim_c6 (fun s => s) (fun _ => some "B")).2.2.2
    "<img src='http://a'><img src='http://b'><img src='http://a'>".data []
    (by decide) (by decide) (by decide) (by decide)
  rw [h]
  decide

/-! ## C10 -/

theorem processSegs_append (md5hex : String → String) (f : String → Option String) :
    ∀ (segs₁ segs₂ : List Seg) (c : List String),
      processSegs md5hex f (segs₁ ++ segs₂) c =
        ((processSegs md5hex f segs₁ c).1 ++
           (processSegs md5hex f segs₂ (processSegs md5hex f segs₁ c).2.1).1,
         (processSegs md5hex f segs₂ (processSegs md5hex f segs₁ c).2.1).2.1,
         (processSegs md5hex f segs₁ c).2.2 ++
           (processSegs md5hex f segs₂ (processSegs md5hex f segs₁ c).2.1).2.2) := by
  intro segs₁
  induction segs₁ with
  | nil =>
    intro segs₂ c
    have h0 : processSegs md5hex f [] c = ([], c, []) := rfl
    rw [List.nil_append, h0]
    dsimp only
    rcases h : processSegs md5hex f segs₂ c with ⟨a, b, l⟩
    simp
  | cons sg rest ih =>
    intro segs₂ c
    cases sg with
    | chr ch =>
      rw [List.cons_append, processSegs_chr, processSegs_chr, ih]
      simp
    | tag t =>
      rw [List.cons_append, processSegs_tag, processSegs_tag, ih]
      simp

theorem processSegs_all_chr (md5hex : String → String) (f : String → Option String) :
    ∀ (segs : List Seg) (c : List String),
      (∀ sg ∈ segs, ∃ ch, sg = Seg.chr ch) →
      processSegs md5hex f segs c = (joinSegs segs, c, []) := by
  intro segs
  induction segs with
  | nil => intro c _; rfl
  | cons sg rest ih =>
    intro c hall
    obtain ⟨ch, rfl⟩ := hall sg (List.mem_cons_self sg rest)
    rw [processSegs_chr, ih c (fun x hx => hall x (List.mem_cons_of_mem _ hx))]
    rfl

/-- C10 counterexample: in a tag whose `src` URL also occurs in another
attribute, `img_tag.replace(original_src, local_path)` rewrites both
occurrences, not only the `src` value — the claim that only the src value
is replaced is false. -/
theorem claim_c10_counterexample :
    (process_images_in_html (fun _ => "L") (fun _ => some "B")
      "<img src='http://a' data-x='http://a'>".data []).1 =
      "<img src='/static/images/L.png' data-x='/static/images/L.png'>".data ∧
    "<img src='/static/images/L.png' data-x='/static/images/L.png'>".data ≠
      "<img src='/static/images/L.png' data-x='http://a'>".data := by
  constructor
  · decide
  · decide

/-- C10 amended: `process_images_in_html` decomposes its input into the
leftmost matches of `<img[^>]+>` and the characters between them (the
decomposition reassembles to the input, and processing is compositional
over it); every character outside a match passes through unchanged; a
matched tag is returned unchanged when it has no quoted `src=` capture,
when the captured value does not start with `http`, or when the download
fails; and on success every occurrence of the captured value inside that
tag (not only the `src` attribute value) is replaced by the local path. -/
theorem claim_c10_amended :
    ∀ (md5hex : String → String) (f : String → Option String),
      (∀ s : List Char, joinSegs (parseSegs s) = s) ∧
      (∀ (s : List Char) (c : List String),
        process_images_in_html md5hex f s c =
          processSegs md5hex f (parseSegs s) c) ∧
      (∀ (segs₁ segs₂ : List Seg) (c : List String),
        (processSegs md5hex f (segs₁ ++ segs₂) c).1 =
          (processSegs md5hex f segs₁ c).1 ++
            (processSegs md5hex f segs₂ (processSegs md5hex f segs₁ c).2.1).1) ∧
      (∀ (segs : List Seg) (c : List String),
        (∀ sg ∈ segs, ∃ ch, sg = Seg.chr ch) →
        processSegs md5hex f segs c = (joinSegs segs, c, [])) ∧
      (∀ (t : List Char) (c : List String),
        (findSrc t = none → replace_img md5hex f t c = (t, c, [])) ∧
        (∀ src, findSrc t = some src → "http".data.isPrefixOf src = false →
          replace_img md5hex f t c = (t, c, [])) ∧
        (∀ src, findSrc t = some src → "http".data.isPrefixOf src →
          localFilename md5hex (String.mk src) ∉ c → f (String.mk src) = none →
          replace_img md5hex f t c = (t, c, [String.mk src])) ∧
        (∀ src, findSrc t = some src → "http".data.isPrefixOf src →
          (localFilename md5hex (String.mk src) ∈ c ∨ f (String.mk src) ≠ none) →
          (replace_img md5hex f t c).1 =
            strReplace src (localUrl md5hex (String.mk src)).data t)) := by
  intro md5hex f
  refine ⟨joinSegs_parseSegs, fun s c => rfl, ?_, processSegs_all_chr md5hex f, ?_⟩
  · intro segs₁ segs₂ c
    rw [processSegs_append]
  · intro t c
    refine ⟨?_, ?_, ?_, ?_⟩
    · intro h
      unfold replace_img
      rw [h]
    · intro src h hh
      unfold replace_img
      rw [h]
      simp [hh]
    · intro src h hh hc hf
      unfold replace_img
      rw [h]
      simp only [hh, if_true]
      unfold download_image
      rw [if_neg hc, hf]
    · intro src h hh hok
      unfold replace_img
      rw [h]
      simp only [hh, if_true]
      unfold download_image
      by_cases hc : localFilename md5hex (String.mk src) ∈ c
      · rw [if_pos hc]
        rfl
      · rw [if_neg hc]
        cases hf : f (String.mk src) with
        | none =>
          rcases hok with hok | hok
          · exact absurd hok hc
          · exact absurd hf hok
        | some b => rfl

/-- C10 witness: a tag whose quoted source is a relative path passes
through image localization unchanged. -/
theorem claim_c10_witness :
    replace_img (fun _ => "L") (fun _ => some "B")
      "<img src='./local/assets/image.gif'>".data [] =
      ("<img src='./local/assets/image.gif'>".data, [], []) :=
  ((claim_c10_amended (fun _ => "L") (fun _ => some "B")).2.2.2.2
    "<img src='./local/assets/image.gif'>".data []).2.1
    "./local/assets/image.gif".data (by decide) (by decide)

/-- A concrete environment whose database connection fails. -/
def envDown : Env :=
  ⟨.error "db is locked", .ok (), .ok (), fun _ => .ok (),
    fun _ => .ok ⟨fun _ => none⟩, fun _ => .ok ⟨fun _ => none⟩,
    fun _ => .ok (), fun _ => .ok (), fun _ => none⟩

/-! ## C1 -/

/-- C1 counterexample: the duplicate check of `scrape_single_article`
runs before its `try`, so a failure raised by `sqlite3.connect` inside
`article_exists` escapes `scrape_single_article` instead of being
converted to an `Error` outcome — the claim that `scrape_single_article`
never raises is false. -/
theorem claim_c1_counterexample :
    scrape_single_article (fun _ => "H") envDown [] [] 1 = .error "db is locked" ∧
    (main (fun _ => "H") envDown [1, 2]).counts =
      { success := 0, skip := 0, fail := 2, exist := 0 } := by
  constructor
  · rfl
  · rfl

/-- C1 amended: every failure raised inside the rendering/processing
block (the `try` of `scrape_single_article`) is converted to the outcome
`Error(message)` for that identifier; the only failure that escapes
`scrape_single_article` is one raised by the duplicate-existence probe,
and the orchestrator's per-future handler catches exactly that, counting
one failure for that identifier only and touching nothing else, so no
task failure terminates other tasks or the orchestrator. -/
theorem claim_c1_amended :
    ∀ (md5hex : String → String) (env : Env) (store : Store)
      (cache : List String) (article_id : Nat),
      (∀ e, scrape_single_article md5hex env store cache article_id = .error e →
        article_exists env store article_id = .error e) ∧
      (∀ b, article_exists env store article_id = .ok b →
        ∃ r, scrape_single_article md5hex env store cache article_id = .ok r) ∧
      (∀ e, env.launch article_id = .ok () →
        renderPage env article_id = .error e →
        scrapeBody md5hex env cache article_id =
          (.error article_id e, cache, [.navigate article_id])) ∧
      (∀ e, env.launch article_id = .error e →
        scrapeBody md5hex env cache article_id = (.error article_id e, cache, [])) ∧
      (∀ (s : RunState), s.store = store → s.cache = cache →
        (∀ e, scrape_single_article md5hex env store cache article_id = .error e →
          step md5hex env s article_id =
            { s with counts := { s.counts with fail := s.counts.fail + 1 } })) := by
  intro md5hex env store cache article_id
  refine ⟨?_, ?_, ?_, ?_, ?_⟩
  · intro e h
    cases hpr : article_exists env store article_id with
    | error e' =>
      rw [scrape_of_probe_error md5hex env store cache article_id e' hpr] at h
      cases h
      rfl
    | ok b =>
      cases b
      · rw [scrape_of_probe_false md5hex env store cache article_id hpr] at h
        cases h
      · rw [scrape_of_probe_true md5hex env store cache article_id hpr] at h
        cases h
  · intro b hpr
    cases b
    · exact ⟨_, scrape_of_probe_false md5hex env store cache article_id hpr⟩
    · exact ⟨_, scrape_of_probe_true md5hex env store cache article_id hpr⟩
  · intro e hlaunch hrender
    unfold scrapeBody
    rw [hlaunch, hrender]
  · intro e hlaunch
    unfold scrapeBody
    rw [hlaunch]
  · intro s hs hcache e herr
    unfold step
    rw [hs, hcache, herr]

/-- C1 witness: with the connection down, collecting task 1 increments
only the failure counter and leaves the store untouched. -/
theorem claim_c1_witness :
    step (fun _ => "H") envDown ⟨[], [], zeroCounts, 0⟩ 1 =
      ⟨[], [], { zeroCounts with fail := zeroCounts.fail + 1 }, 0⟩ :=
  ((claim_c1_amended (fun _ => "H") envDown [] [] 1).2.2.2.2
    ⟨[], [], zeroCounts, 0⟩ rfl rfl "db is locked" rfl)

/-! ## C4 -/

/-- C4 counterexample: `sqlite3.connect` sits before the `try` of
`save_article`, so a connection failure raises to the caller — the claim
that `save_article` never raises on failure is false. -/
theorem claim_c4_counterexample :
    save_article
      ⟨.error "unable to open database file", .ok (), .ok (), fun _ => .ok (),
        fun _ => .ok ⟨fun _ => none⟩, fun _ => .ok ⟨fun _ => none⟩,
        fun _ => .ok (), fun _ => .ok (), fun _ => none⟩
      [] ⟨1, "t", "a", "u", "c", "h"⟩ 0 =
      .error "unable to open database file" := by
  rfl

/-- C4 amended: once the connection is open, `save_article` never raises:
any insert/commit failure is caught and reported as `false` with the
store unchanged (a connection-open failure, raised before the `try`,
propagates to the caller instead).  On success it performs a full replace
— the stored row with the record's id carries exactly the record's
fields, with `created_at` reset to the write time, and every other
surviving row is a row of the old store with a different id and url.  It
is idempotent: writing the same record twice produces exactly the store
of a single write at the later time. -/
theorem claim_c4_amended :
    (∀ (env : Env) (store : Store) (a : ArticleData) (now : Nat),
      env.dbConnect = .ok () →
      (∀ e, env.dbExec = .error e →
        save_article env store a now = .ok (false, store)) ∧
      (env.dbExec = .ok () →
        save_article env store a now = .ok (true, upsertRow store a now))) ∧
    (∀ (store : Store) (a : ArticleData) (now : Nat),
      (⟨a.id, a.title, a.author, a.url, a.category, a.content_html, now⟩ : Row) ∈
        upsertRow store a now ∧
      (∀ r ∈ upsertRow store a now, r.id = a.id →
        r = ⟨a.id, a.title, a.author, a.url, a.category, a.content_html, now⟩) ∧
      (∀ r ∈ upsertRow store a now,
        r ≠ ⟨a.id, a.title, a.author, a.url, a.category, a.content_html, now⟩ →
        r ∈ store ∧ r.id ≠ a.id ∧ r.url ≠ a.url)) ∧
    (∀ (store : Store) (a : ArticleData) (now₁ now₂ : Nat),
      upsertRow (upsertRow store a now₁) a now₂ = upsertRow store a now₂) := by
  refine ⟨?_, ?_, ?_⟩
  · intro env store a now hc
    constructor
    · intro e he
      unfold save_article
      rw [hc, he]
      rfl
    · intro he
      unfold save_article
      rw [hc, he]
      rfl
  · intro store a now
    refine ⟨?_, ?_, ?_⟩
    · unfold upsertRow
      exact List.mem_append_right _ (List.mem_singleton.mpr rfl)
    · intro r hr hid
      rcases List.mem_append.mp hr with h | h
      · have := (List.mem_filter.mp h).2
        simp [hid] at this
      · exact List.mem_singleton.mp h
    · intro r hr hne
      rcases List.mem_append.mp hr with h | h
      · have hmem := (List.mem_filter.mp h).1
        have hpred := (List.mem_filter.mp h).2
        simp only [Bool.not_eq_eq_eq_not, Bool.not_true, Bool.or_eq_false_iff,
          beq_eq_false_iff_ne, ne_eq] at hpred
        exact ⟨hmem, hpred.1, hpred.2⟩
      · exact absurd (List.mem_singleton.mp h) hne
  · intro store a now₁ now₂
    unfold upsertRow
    rw [List.filter_append, List.filter_filter]
    have h1 : (List.filter
        (fun r => !(r.id == a.id || r.url == a.url))
        [(⟨a.id, a.title, a.author, a.url, a.category, a.content_html, now₁⟩ : Row)]) =
        [] := by
      simp
    rw [h1, List.append_nil]
    congr 1
    apply List.filter_congr
    intro r _
    simp

/-- C4 witness: with a healthy connection, a duplicate write of the same
record replaces the earlier row wholesale and resets `created_at`. -/
theorem claim_c4_witness :
    save_article
      ⟨.ok (), .ok (), .ok (), fun _ => .ok (),
        fun _ => .ok ⟨fun _ => none⟩, fun _ => .ok ⟨fun _ => none⟩,
        fun _ => .ok (), fun _ => .ok (), fun _ => none⟩
      [] ⟨1, "t", "a", "u", "c", "h"⟩ 5 =
      .ok (true, upsertRow [] ⟨1, "t", "a", "u", "c", "h"⟩ 5) ∧
    upsertRow (upsertRow [] ⟨1, "t", "a", "u", "c", "h"⟩ 3)
        ⟨1, "t", "a", "u", "c", "h"⟩ 5 =
      upsertRow [] ⟨1, "t", "a", "u", "c", "h"⟩ 5 :=
  ⟨((claim_c4_amended.1
      ⟨.ok (), .ok (), .ok (), fun _ => .ok (),
        fun _ => .ok ⟨fun _ => none⟩, fun _ => .ok ⟨fun _ => none⟩,
        fun _ => .ok (), fun _ => .ok (), fun _ => none⟩
      [] ⟨1, "t", "a", "u", "c", "h"⟩ 5 rfl).2 rfl),
   claim_c4_amended.2.2 [] ⟨1, "t", "a", "u", "c", "h"⟩ 3 5⟩

/-! ## C9 -/

/-- C9: field extraction is total (`extractFields` is a function — no
exception path) and resolves every absent element to its documented
fallback: missing title gives the placeholder embedding the id, missing
author the sentinel `未知作者`, missing category the empty string, missing
body container the placeholder markup; on the modern path the body falls
back from `.ne-viewer-body` to the legacy selectors before the
placeholder. -/
theorem claim_c9 :
    ∀ (p : Page) (article_id : Nat),
      (p.q ".detail_title" = none →
        (extractFields p article_id).title = placeholderTitle article_id) ∧
      (p.q ".username" = none →
        (extractFields p article_id).author = "未知作者") ∧
      (p.q ".cates_span" = none →
        (extractFields p article_id).category = "") ∧
      (article_id ≤ ARTICLE_VERSION_THRESHOLD →
        p.q ".detail_content, #markdown-body" = none →
        (extractFields p article_id).content_html = "<p>无内容</p>") ∧
      (ARTICLE_VERSION_THRESHOLD < article_id →
        (∀ e, p.q ".ne-viewer-body" = none →
          p.q ".detail_content, #markdown-body" = some e →
          (extractFields p article_id).content_html = postProcessModern e.html) ∧
        (p.q ".ne-viewer-body" = none →
          p.q ".detail_content, #markdown-body" = none →
          (extractFields p article_id).content_html = "<p>无内容</p>")) := by
  intro p article_id
  have hplaceholder : postProcessModern "<p>无内容</p>" = "<p>无内容</p>" := by decide
  refine ⟨?_, ?_, ?_, ?_, ?_⟩
  · intro h
    by_cases hle : article_id ≤ ARTICLE_VERSION_THRESHOLD <;>
      simp [extractFields, extractLegacy, extractModern, extractTitle, hle, h]
  · intro h
    by_cases hle : article_id ≤ ARTICLE_VERSION_THRESHOLD <;>
      simp [extractFields, extractLegacy, extractModern, extractAuthor, hle, h]
  · intro h
    by_cases hle : article_id ≤ ARTICLE_VERSION_THRESHOLD <;>
      simp [extractFields, extractLegacy, extractModern, extractCategory, hle, h]
  · intro hle h
    simp [extractFields, extractLegacy, hle, h]
  · intro hgt
    have hle : ¬ article_id ≤ ARTICLE_VERSION_THRESHOLD := Nat.not_le.mpr hgt
    constructor
    · intro e h1 h2
      simp [extractFields, extractModern, hle, h1, h2]
    · intro h1 h2
      simp [extractFields, extractModern, hle, h1, h2, hplaceholder]

/-- C9 witness: a modern-path page with every element absent resolves all
four fields to their fallbacks. -/
theorem claim_c9_witness :
    (extractFields ⟨fun _ => none⟩ 20000).title = placeholderTitle 20000 ∧
    (extractFields ⟨fun _ => none⟩ 20000).author = "未知作者" ∧
    (extractFields ⟨fun _ => none⟩ 20000).category = "" ∧
    (extractFields ⟨fun _ => none⟩ 20000).content_html = "<p>无内容</p>" :=
  ⟨(claim_c9 ⟨fun _ => none⟩ 20000).1 rfl,
   (claim_c9 ⟨fun _ => none⟩ 20000).2.1 rfl,
   (claim_c9 ⟨fun _ => none⟩ 20000).2.2.1 rfl,
   ((claim_c9 ⟨fun _ => none⟩ 20000).2.2.2.2 (by decide)).2 rfl rfl⟩

end XZ
